import Mathlib

/-!
Shallow embedding of the payroll/invoice pipeline of `src/app.py`.

A dataframe is modelled as a `Table`: the list of column names (the header)
together with the rows, each row an association list from column name to
`Cell`.  Numeric values are rationals.  A textual cell carries the outcomes
of the two best-effort parses the source performs on it
(`pd.to_numeric(..., errors="coerce")` and `pd.to_datetime(..., errors="coerce")`),
so that unparseable-value coercion is explicit in the model.
-/

namespace PayrollInvoice

/-- Parse outcomes carried by a textual cell: `numVal` is the result of
numeric parsing (`none` means unparseable, which `fillna(0)` coerces to 0),
`dateVal` the result of date parsing (`none` means unparseable, which
`errors="coerce"` turns into a missing date, `NaT`). -/
structure RawText where
  numVal : Option ℚ
  dateVal : Option String
deriving DecidableEq

/-- A spreadsheet cell: a numeric value, a parsed datetime, an empty cell
(`NaN`/`NaT`), or textual content together with its parse outcomes. -/
inductive Cell where
  | num : ℚ → Cell
  | date : String → Cell
  | blank : Cell
  | text : RawText → Cell
deriving DecidableEq

/-- Numeric coercion of one cell: `pd.to_numeric(..., errors="coerce")`
followed by `fillna(0)`.  A numeric cell keeps its value, an empty cell and
unparseable text become 0, parseable text becomes its parsed value.
(A datetime cell is mapped to 0; in the source the two date columns are
excluded from numeric conversion, so this case is never exercised by the
pipeline.) -/
def Cell.val : Cell → ℚ
  | .num q => q
  | .date _ => 0
  | .blank => 0
  | .text r => r.numVal.getD 0

/-- One dataframe row: an association list from column name to cell. -/
abbrev Row := List (String × Cell)

/-- A dataframe: the column list (header) and the rows.  Column presence
(`df["X"]` raising `KeyError` or not) is decided by the header, exactly as
in pandas; values are read from the rows. -/
structure Table where
  header : List String
  rows : List Row
deriving DecidableEq

/-- Header normalization of `src/app.py` (`re.sub(r"[^a-z]", "", s.lower())`):
lowercase, then keep only the letters `a`-`z`. -/
def normKey (s : String) : String :=
  ⟨(s.data.map Char.toLower).filter (fun c => decide ('a' ≤ c ∧ c ≤ 'z'))⟩

/-- Whether row `r` has an entry named `n`. -/
def hasName (r : Row) (n : String) : Bool :=
  r.any (fun p => p.1 == n)

/-- Whether a header contains column `n` (`n in df.columns`). -/
def hasCol (h : List String) (n : String) : Bool :=
  h.any (fun c => c == n)

/-- The cell of row `r` in column `n`; a missing entry reads as an empty
cell (`NaN`). -/
def getCellD (r : Row) (n : String) : Cell :=
  ((r.find? (fun p => p.1 == n)).map Prod.snd).getD Cell.blank

/-- The numeric value of row `r` in column `n`, a missing column
contributing 0.  This is the per-row meaning of `df.get(n, 0)` in the
arithmetic of the source. -/
def getV (r : Row) (n : String) : ℚ :=
  (getCellD r n).val

/-- Column assignment `df[n] = v` at one row: replace the entry named `n`
if present (pandas keeps its position), else append a new column. -/
def setCol (r : Row) (n : String) (c : Cell) : Row :=
  if hasName r n then r.map (fun p => if p.1 == n then (n, c) else p)
  else r ++ [(n, c)]

/-- `df[n] = df.get(n, 0)` at one row: a no-op when the column exists,
otherwise create it with value 0 (the broadcast scalar default). -/
def materializeCol (r : Row) (n : String) : Row :=
  if hasName r n then r else r ++ [(n, Cell.num 0)]

/-- `df[n].sum()` when the column is known to exist: the sum of the numeric
values of column `n` over all rows (pandas sums with `skipna=True`, and an
empty cell contributes 0). -/
def colSumD (t : Table) (n : String) : ℚ :=
  (t.rows.map (fun r => getV r n)).sum

/-- `df[n].sum()` as the source calls it on a direct subscript: `KeyError`
(modelled as `none`) when the column is absent from the header, otherwise
the column sum. -/
def colSum? (t : Table) (n : String) : Option ℚ :=
  if hasCol t.header n then some (colSumD t n) else none

/-- `sum_norm(df, *target_names)` (src/app.py lines 38-49): for each target
in order, normalize it and scan the columns in order for one whose
normalized name equals the target's; return the sum of the first such
column, or 0 when no target matches any column. -/
def sum_norm (t : Table) : List String → ℚ
  | [] => 0
  | tg :: rest =>
    match t.header.find? (fun c => normKey c == normKey tg) with
    | some c => colSumD t c
    | none => sum_norm t rest

/-- Modelled from the spec wording of claim C2, for comparison with
`sum_norm`: return the sum of the first COLUMN (in column order) whose
normalized name equals the normalized form of SOME target.  The source
instead iterates the targets in the outer loop and the columns in the
inner loop. -/
def sumNormColumnFirst (t : Table) (targets : List String) : ℚ :=
  match t.header.find? (fun c => targets.any (fun tg => normKey c == normKey tg)) with
  | some c => colSumD t c
  | none => 0

/-- The acceptable cost-center spellings, in priority order
(src/app.py line 91). -/
def costCenterAliases : List String :=
  ["C/Center", "Cost Center", "Center", "C Center", "C-Center"]

/-- One step of `match_cost_center_column`: the first column of `columns`
whose normalized name equals the normalized target. -/
def lookupNorm (columns : List String) (tg : String) : Option String :=
  columns.find? (fun c => normKey c == normKey tg)

/-- The target-priority loop of `match_cost_center_column`: try each alias
in order, returning the first column matching the first alias that matches
anything. -/
def firstAliasMatch (columns : List String) : List String → Option String
  | [] => none
  | tg :: rest =>
    match lookupNorm columns tg with
    | some c => some c
    | none => firstAliasMatch columns rest

/-- `match_cost_center_column(columns)` (src/app.py lines 90-98): resolve
the cost-center column by trying the fixed alias list in priority order;
`none` when no alias matches any column (the source then shows an error
and halts the session with `st.stop()`). -/
def match_cost_center_column (columns : List String) : Option String :=
  firstAliasMatch columns costCenterAliases

/-- `pd.to_datetime(..., errors="coerce")` on one cell: a numeric value
parses to a valid timestamp (the epoch offset), a datetime stays itself,
an empty cell gives `NaT`, and text gives its date-parse outcome (`NaT`,
i.e. an empty cell, when unparseable). -/
def toDateCell : Cell → Cell
  | .num q => .date (toString q.num ++ "/" ++ toString q.den)
  | .date s => .date s
  | .blank => .blank
  | .text r =>
    match r.dateVal with
    | some d => .date d
    | none => .blank

/-- `isna()` of one cell after date conversion. -/
def isNa : Cell → Bool
  | .blank => true
  | _ => false

/-- The two date-column assignments of src/app.py lines 110-111, at one
row: `df["Joined"] = pd.to_datetime(df["Joined"], errors="coerce")` and
likewise for `"Resign"`. -/
def parseDates (r : Row) : Row :=
  setCol (setCol r "Joined" (toDateCell (getCellD r "Joined")))
    "Resign" (toDateCell (getCellD r "Resign"))

/-- The department selection `df_raw[df_raw[cost_col] == sel_dept]`
(src/app.py line 107): keep the rows whose cost-center cell equals the
selected department value. -/
def filterDept (t : Table) (costCol : String) (dept : Cell) : Table :=
  ⟨t.header, t.rows.filter (fun r => decide (getCellD r costCol = dept))⟩

/-- The resigned-staff filter (src/app.py lines 110-112): the `"Joined"`
and `"Resign"` columns are accessed by direct subscript, so a table whose
header lacks either column raises `KeyError` (modelled as `none`);
otherwise both columns are converted to dates and only the rows whose
converted `"Resign"` is missing (`NaT`) are kept. -/
def dropResigned (t : Table) : Option Table :=
  if hasCol t.header "Joined" && hasCol t.header "Resign" then
    some ⟨t.header, (t.rows.map parseDates).filter (fun r => isNa (getCellD r "Resign"))⟩
  else none

/-- The columns excluded from numeric conversion (src/app.py line 115). -/
def ignoreCols (costCol : String) : List String :=
  ["Name", "Emp No", costCol, "Joined", "Resign"]

/-- Numeric conversion of a single entry: entries in the ignore list are
left alone, every other entry is coerced to its numeric value. -/
def coerceEntry (costCol : String) (p : String × Cell) : String × Cell :=
  if p.1 ∈ ignoreCols costCol then p else (p.1, Cell.num p.2.val)

/-- The numeric conversion `df[num_cols] = df[num_cols].apply(pd.to_numeric,
errors="coerce").fillna(0)` (src/app.py lines 114-117) at one row. -/
def coerceRow (costCol : String) (r : Row) : Row :=
  r.map (coerceEntry costCol)

/-- The fixed list of earning-component columns summed into Gross Pay
(src/app.py lines 120-129). -/
def earningCols : List String :=
  ["M/Basic", "OT Amt 1½", "MEC", "ALL", "OVT", "MS", "NS",
   "ICP", "BAC", "BSC", "BBB", "BAL", "BOT", "CSN"]

/-- Per-row Gross Pay: the sum of the earning-component columns, a column
absent from the sheet contributing 0 (each summand is `df.get(c, 0)`). -/
def grossPay (r : Row) : ℚ :=
  (earningCols.map (getV r)).sum

/-- `df["Gross Pay"] = ...` (src/app.py lines 120-129) at one row. -/
def gpStep (r : Row) : Row :=
  setCol r "Gross Pay" (Cell.num (grossPay r))

/-- The four deduction-column materializations `df["EPF"] = df.get("EPF", 0)`
etc. (src/app.py lines 130-133) at one row. -/
def matStep (r : Row) : Row :=
  materializeCol (materializeCol (materializeCol (materializeCol r "EPF") "Socso") "EIS") "PCB"

/-- The row-wise sum `df[["EPF","Socso","EIS","PCB"]].sum(axis=1)`. -/
def tdSum (r : Row) : ℚ :=
  getV r "EPF" + getV r "Socso" + getV r "EIS" + getV r "PCB"

/-- `df["Total Deduction"] = df[["EPF","Socso","EIS","PCB"]].sum(axis=1)`
(src/app.py line 134) at one row. -/
def tdStep (r : Row) : Row :=
  setCol r "Total Deduction" (Cell.num (tdSum r))

/-- `df["Net Pay"] = df["Gross Pay"] - df["Total Deduction"]`
(src/app.py line 135) at one row. -/
def netStep (r : Row) : Row :=
  setCol r "Net Pay" (Cell.num (getV r "Gross Pay" - getV r "Total Deduction"))

/-- The payroll-summary block (src/app.py lines 120-135) at one row. -/
def summarizeRow (r : Row) : Row :=
  netStep (tdStep (matStep (gpStep r)))

/-- Numeric conversion followed by the payroll summary, at one row. -/
def aggregateRow (costCol : String) (r : Row) : Row :=
  summarizeRow (coerceRow costCol r)

/-- Header update of a column assignment: append the name if new. -/
def addCol (h : List String) (n : String) : List String :=
  if hasCol h n then h else h ++ [n]

/-- The header after the payroll-summary block: the seven assigned columns
are appended when absent, in assignment order. -/
def aggHeader (h : List String) : List String :=
  addCol (addCol (addCol (addCol (addCol (addCol (addCol h
    "Gross Pay") "EPF") "Socso") "EIS") "PCB") "Total Deduction") "Net Pay"

/-- The Payroll Aggregator (src/app.py lines 114-135) on a whole table:
numeric conversion and the Gross Pay / Total Deduction / Net Pay
computation, applied to every row. -/
def aggregateTable (costCol : String) (t : Table) : Table :=
  ⟨aggHeader t.header, t.rows.map (aggregateRow costCol)⟩

/-- The core pipeline: resolve the cost-center column (fatal when it cannot
be found), filter to the chosen department, drop resigned staff (fatal when
the date columns are missing), then aggregate. -/
def runPipeline (raw : Table) (dept : Cell) : Option Table :=
  match match_cost_center_column raw.header with
  | none => none
  | some costCol => (dropResigned (filterDept raw costCol dept)).map (aggregateTable costCol)

/-- Two-decimal formatting and re-parsing of a monetary value: the source
renders every computed line value with `f"{x:,.2f}"` and later re-parses
the strings to total them, which amounts to rounding to cents. -/
def round2 (q : ℚ) : ℚ :=
  ((round (q * 100) : ℤ) : ℚ) / 100

/-- One invoice line: number, description, quantity, unit price and amount.
`none` stands for the empty string of a placeholder cell. -/
structure LineItem where
  no : ℕ
  desc : String
  qty : ℕ
  uPrice : Option ℚ
  amount : Option ℚ
deriving DecidableEq

/-- The EPF employer-contribution alias group (src/app.py line 161). -/
def epfErAliases : List String := ["EPF ER", "EPF\x27ER", "EPFER"]

/-- The EIS employer-contribution alias group (src/app.py line 162). -/
def eisErAliases : List String := ["EIS ER", "EIS\x27ER", "EISER"]

/-- The Socso employer-contribution alias group (src/app.py lines 163-170);
the last variant is literally the "Soc \x27EE" spelling of the source. -/
def socsoErAliases : List String :=
  ["Socso ER", "SOC ER", "SOC\x27ER", "SOCSOER", "Soc \x27EE"]

/-- The fixed insurance fee per head (src/app.py line 174). -/
def insuranceFee : ℚ := 50

/-- The seven invoice lines (src/app.py lines 186-194), each monetary cell
carrying its two-decimal formatted value; line 5 is the placeholder with
empty unit price and amount, line 6 is quantity `n` at the fixed fee. -/
def invoiceItems (wages overtime empStat hrdf : ℚ) (n : ℕ) (mgmtFee : ℚ) : List LineItem :=
  [⟨1, "Wages", 1, some (round2 wages), some (round2 wages)⟩,
   ⟨2, "Overtime", 1, some (round2 overtime), some (round2 overtime)⟩,
   ⟨3, "Employer Statutory (EPF+Socso+EIS)", 1, some (round2 empStat), some (round2 empStat)⟩,
   ⟨4, "HRDF", 1, some (round2 hrdf), some (round2 hrdf)⟩,
   ⟨5, "Medical Fee (Excl. Mgmt Fee)", 1, none, none⟩,
   ⟨6, "Insurance Claim (Excl. Mgmt Fee)", n, some (round2 insuranceFee),
     some (round2 (insuranceFee * (n : ℚ)))⟩,
   ⟨7, "15% Management Fee", 1, some (round2 mgmtFee), some (round2 mgmtFee)⟩]

/-- The invoice summary: headcount, the five derived quantities, the line
items and the three totals. -/
structure InvoiceData where
  n : ℕ
  wages : ℚ
  overtime : ℚ
  empStat : ℚ
  hrdf : ℚ
  mgmtFee : ℚ
  items : List LineItem
  totalExcl : ℚ
  tax : ℚ
  totalIncl : ℚ
deriving DecidableEq

/-- The pure core of the invoice computation (src/app.py lines 156-205),
given the four column sums that the source reads fallibly.  `total_excl_sst`
re-parses the formatted `Amount` strings, skipping the empty placeholder,
hence the sum of the rounded line amounts with the placeholder as 0. -/
def invoiceOf (t : Table) (gross ot1 bot hrdf : ℚ) : InvoiceData :=
  let overtime := ot1 + bot
  let empStat := sum_norm t epfErAliases + sum_norm t socsoErAliases + sum_norm t eisErAliases
  let n := t.rows.length
  let wages := gross - overtime
  let mgmtFee := 0.15 * (wages + overtime + empStat + hrdf)
  let items := invoiceItems wages overtime empStat hrdf n mgmtFee
  let totalExcl := (items.map (fun it => it.amount.getD 0)).sum
  ⟨n, wages, overtime, empStat, hrdf, mgmtFee, items, totalExcl,
    0.08 * totalExcl, totalExcl + 0.08 * totalExcl⟩

/-- The Invoice Calculator (src/app.py lines 153-205).  `df["Gross Pay"]`,
`df["OT Amt 1½"]` and `df["BOT"]` are direct subscripts (`KeyError` when
absent) and `df.get("HRDF", 0).sum()` raises `AttributeError` when the
column is absent (the int default has no `.sum`); all four failures land in
the common `except` handler, modelled as `none`.  The `sum_norm` lookups
never fail. -/
def invoice? (t : Table) : Option InvoiceData :=
  match colSum? t "Gross Pay", colSum? t "OT Amt 1½", colSum? t "BOT", colSum? t "HRDF" with
  | some gross, some ot1, some bot, some hrdf => some (invoiceOf t gross ot1 bot hrdf)
  | _, _, _, _ => none

/-- Table renaming used to state normalization-invariance of `sum_norm`:
apply `f` to the header and to every row key. -/
def renameRow (f : String → String) (r : Row) : Row :=
  r.map (fun p => (f p.1, p.2))

/-- Rename every column of a table. -/
def renameTable (f : String → String) (t : Table) : Table :=
  ⟨t.header.map f, t.rows.map (renameRow f)⟩

/-! ### Concrete tables used by counterexamples and witnesses -/

/-- The single row of `C2tbl`. -/
def C2row : Row := [("EIS ER", Cell.num 1), ("EPF ER", Cell.num 2)]

/-- A department table on which the two loop orders of the column matcher
disagree: the first column matches the second target and vice versa. -/
def C2tbl : Table := ⟨["EIS ER", "EPF ER"], [C2row]⟩

/-- The target list used against `C2tbl`. -/
def C2targets : List String := ["EPF ER", "EIS ER"]

/-- A department table with one active row whose `Resign` cell holds
non-empty text that fails to parse as a date. -/
def C3tbl : Table :=
  ⟨["Joined", "Resign", "M/Basic"],
   [[("Joined", Cell.date "2020-01-05"),
     ("Resign", Cell.text ⟨none, none⟩),
     ("M/Basic", Cell.num 3000)]]⟩

/-- An aggregated table whose header lacks the `"BOT"` column. -/
def C4tbl : Table :=
  ⟨["Gross Pay", "OT Amt 1½", "HRDF"],
   [[("Gross Pay", Cell.num 3200), ("OT Amt 1½", Cell.num 200), ("HRDF", Cell.num 0)]]⟩

/-- A header with no column matching any cost-center alias. -/
def noCCtbl : Table := ⟨["Name", "M/Basic"], []⟩

/-- A complete aggregated one-row department table on which the invoice
computation succeeds. -/
def Wtbl : Table :=
  ⟨["Gross Pay", "OT Amt 1½", "BOT", "HRDF", "EPF\x27ER", "EIS ER", "SOCSOER"],
   [[("Gross Pay", Cell.num 3200), ("OT Amt 1½", Cell.num 200), ("BOT", Cell.num 0),
     ("HRDF", Cell.num 32), ("EPF\x27ER", Cell.num 100), ("EIS ER", Cell.num 10),
     ("SOCSOER", Cell.num 60)]]⟩

/-- The invoice computed from `Wtbl` (wages 3000, overtime 200, statutory
170, HRDF 32, management fee 510.3, subtotal 3962.3, tax 316.984). -/
def wInv : InvoiceData :=
  invoiceOf Wtbl (colSumD Wtbl "Gross Pay") (colSumD Wtbl "OT Amt 1½")
    (colSumD Wtbl "BOT") (colSumD Wtbl "HRDF")

/-- An aggregated department table with all required columns but no rows. -/
def W0tbl : Table := ⟨["Gross Pay", "OT Amt 1½", "BOT", "HRDF"], []⟩

/-- The invoice computed from the empty department table `W0tbl`: every
quantity is zero. -/
def w0Inv : InvoiceData :=
  invoiceOf W0tbl (colSumD W0tbl "Gross Pay") (colSumD W0tbl "OT Amt 1½")
    (colSumD W0tbl "BOT") (colSumD W0tbl "HRDF")

/-! ### Row-level lemmas about lookup, assignment and materialization -/

theorem hasName_cons (p : String × Cell) (r : Row) (n : String) :
    hasName (p :: r) n = (p.1 == n || hasName r n) := by
  simp [hasName]

theorem getCellD_cons (p : String × Cell) (r : Row) (n : String) :
    getCellD (p :: r) n = if p.1 == n then p.2 else getCellD r n := by
  cases h : p.1 == n <;> simp [getCellD, List.find?, h]

theorem hasName_eq_false_iff {r : Row} {n : String} :
    hasName r n = false ↔ ∀ p ∈ r, p.1 ≠ n := by
  simp [hasName]

theorem getCellD_eq_blank_of_not_has {r : Row} {n : String} (h : hasName r n = false) :
    getCellD r n = Cell.blank := by
  induction r with
  | nil => rfl
  | cons p r ih =>
    rw [hasName_cons, Bool.or_eq_false_iff] at h
    rw [getCellD_cons, h.1, if_neg (by simp)]
    exact ih h.2

theorem getCellD_append_single_ne (r : Row) {n m : String} (c : Cell) (hmn : m ≠ n) :
    getCellD (r ++ [(n, c)]) m = getCellD r m := by
  induction r with
  | nil =>
    simp [getCellD_cons, beq_eq_false_iff_ne.mpr (fun h => hmn h.symm)]
  | cons p r ih =>
    rw [List.cons_append, getCellD_cons, getCellD_cons, ih]

theorem getCellD_append_single_self {r : Row} {n : String} (c : Cell)
    (h : hasName r n = false) :
    getCellD (r ++ [(n, c)]) n = c := by
  induction r with
  | nil => simp [getCellD_cons]
  | cons p r ih =>
    rw [hasName_cons, Bool.or_eq_false_iff] at h
    rw [List.cons_append, getCellD_cons, h.1, if_neg (by simp)]
    exact ih h.2

theorem hasName_append_single (r : Row) (n m : String) (c : Cell) :
    hasName (r ++ [(n, c)]) m = (hasName r m || n == m) := by
  simp [hasName, List.any_append]

theorem hasName_replace (r : Row) (n m : String) (c : Cell) :
    hasName (r.map (fun p => if p.1 == n then (n, c) else p)) m = hasName r m := by
  induction r with
  | nil => rfl
  | cons p r ih =>
    rw [List.map_cons, hasName_cons, hasName_cons, ih]
    by_cases hp : p.1 == n
    · rw [if_pos hp, ← eq_of_beq hp]
    · rw [if_neg hp]

theorem getCellD_replace_self (r : Row) (n : String) (c : Cell) (h : hasName r n = true) :
    getCellD (r.map (fun p => if p.1 == n then (n, c) else p)) n = c := by
  induction r with
  | nil => exact absurd h (by simp [hasName])
  | cons p r ih =>
    rw [List.map_cons, getCellD_cons]
    by_cases hp : p.1 == n
    · rw [if_pos hp]
      simp
    · rw [if_neg hp, if_neg hp]
      rw [hasName_cons, Bool.or_eq_true] at h
      rcases h with h | h
      · exact absurd h hp
      · exact ih h

theorem getCellD_replace_ne (r : Row) {n m : String} (c : Cell) (hmn : m ≠ n) :
    getCellD (r.map (fun p => if p.1 == n then (n, c) else p)) m = getCellD r m := by
  induction r with
  | nil => rfl
  | cons p r ih =>
    rw [List.map_cons, getCellD_cons, getCellD_cons]
    by_cases hp : p.1 == n
    · rw [if_pos hp]
      have hpm : (p.1 == m) = false := by
        rw [eq_of_beq hp]; exact beq_eq_false_iff_ne.mpr (fun hh => hmn hh.symm)
      have hnm : (n == m) = false := beq_eq_false_iff_ne.mpr (fun hh => hmn hh.symm)
      simp only [hnm, hpm, Bool.false_eq_true, if_false]
      exact ih
    · rw [if_neg hp]
      by_cases hpm : p.1 == m
      · rw [if_pos hpm, if_pos hpm]
      · rw [if_neg hpm, if_neg hpm]
        exact ih

theorem hasName_setCol_self (r : Row) (n : String) (c : Cell) :
    hasName (setCol r n c) n = true := by
  unfold setCol
  by_cases h : hasName r n
  · rw [if_pos h, hasName_replace]; exact h
  · rw [if_neg h, hasName_append_single]
    simp

theorem hasName_setCol_ne (r : Row) {n m : String} (c : Cell) (hmn : m ≠ n) :
    hasName (setCol r n c) m = hasName r m := by
  unfold setCol
  by_cases h : hasName r n
  · rw [if_pos h, hasName_replace]
  · rw [if_neg h, hasName_append_single,
      beq_eq_false_iff_ne.mpr (fun hh => hmn hh.symm), Bool.or_false]

theorem getCellD_setCol_self (r : Row) (n : String) (c : Cell) :
    getCellD (setCol r n c) n = c := by
  unfold setCol
  by_cases h : hasName r n
  · rw [if_pos h]; exact getCellD_replace_self r n c h
  · have h' : hasName r n = false := by simp only [Bool.not_eq_true] at h; exact h
    rw [if_neg h]; exact getCellD_append_single_self c h'

theorem getCellD_setCol_ne (r : Row) {n m : String} (c : Cell) (hmn : m ≠ n) :
    getCellD (setCol r n c) m = getCellD r m := by
  unfold setCol
  by_cases h : hasName r n
  · rw [if_pos h]; exact getCellD_replace_ne r c hmn
  · rw [if_neg h]; exact getCellD_append_single_ne r c hmn

theorem getV_setCol_self (r : Row) (n : String) (c : Cell) :
    getV (setCol r n c) n = c.val := by
  rw [getV, getCellD_setCol_self]

theorem getV_setCol_ne (r : Row) {n m : String} (c : Cell) (hmn : m ≠ n) :
    getV (setCol r n c) m = getV r m := by
  rw [getV, getCellD_setCol_ne r c hmn, getV]

theorem hasName_materializeCol_self (r : Row) (n : String) :
    hasName (materializeCol r n) n = true := by
  unfold materializeCol
  cases h : hasName r n with
  | false => simp [hasName_append_single, h]
  | true => simp [h]

theorem hasName_materializeCol_ne (r : Row) {n m : String} (hmn : m ≠ n) :
    hasName (materializeCol r n) m = hasName r m := by
  unfold materializeCol
  cases h : hasName r n with
  | false =>
    simp [hasName_append_single, h, beq_eq_false_iff_ne.mpr (fun hh => hmn hh.symm)]
  | true => simp

theorem materializeCol_eq_self {r : Row} {n : String} (h : hasName r n = true) :
    materializeCol r n = r := by
  simp [materializeCol, h]

theorem getCellD_materializeCol_ne (r : Row) {n m : String} (hmn : m ≠ n) :
    getCellD (materializeCol r n) m = getCellD r m := by
  unfold materializeCol
  cases h : hasName r n with
  | false => simp [getCellD_append_single_ne r _ hmn]
  | true => simp

theorem getV_materializeCol (r : Row) (n m : String) :
    getV (materializeCol r n) m = getV r m := by
  by_cases hmn : m = n
  · subst hmn
    unfold materializeCol
    cases h : hasName r m with
    | false =>
      rw [if_neg (by simp [h]), getV, getCellD_append_single_self _ h, getV,
        getCellD_eq_blank_of_not_has h]
      rfl
    | true => simp
  · rw [getV, getCellD_materializeCol_ne r hmn, getV]

theorem mem_setCol_eq {r : Row} {n : String} {c : Cell} :
    ∀ p ∈ setCol r n c, p.1 = n → p = (n, c) := by
  unfold setCol
  by_cases h : hasName r n
  · rw [if_pos h]
    intro p hp hpn
    obtain ⟨q, hq, hqe⟩ := List.mem_map.mp hp
    by_cases hqn : q.1 == n
    · rw [if_pos hqn] at hqe; exact hqe.symm
    · rw [if_neg hqn] at hqe
      subst hqe
      exact absurd hpn (by simpa using hqn)
  · rw [if_neg h]
    have h' : hasName r n = false := by simp only [Bool.not_eq_true] at h; exact h
    intro p hp hpn
    rcases List.mem_append.mp hp with hp | hp
    · exact absurd hpn ((hasName_eq_false_iff.mp h') p hp)
    · exact List.mem_singleton.mp hp

theorem mem_setCol_preserve {r : Row} {n : String} {c : Cell}
    (hinv : ∀ p ∈ r, p.1 = n → p = (n, c)) {m : String} (hmn : m ≠ n) (c' : Cell) :
    ∀ p ∈ setCol r m c', p.1 = n → p = (n, c) := by
  unfold setCol
  by_cases h : hasName r m
  · rw [if_pos h]
    intro p hp hpn
    obtain ⟨q, hq, hqe⟩ := List.mem_map.mp hp
    by_cases hqm : q.1 == m
    · rw [if_pos hqm] at hqe; subst hqe; exact absurd hpn hmn
    · rw [if_neg hqm] at hqe; subst hqe; exact hinv q hq hpn
  · rw [if_neg h]
    intro p hp hpn
    rcases List.mem_append.mp hp with hp | hp
    · exact hinv p hp hpn
    · rw [List.mem_singleton.mp hp] at hpn; exact absurd hpn hmn

theorem mem_materializeCol_preserve {r : Row} {n : String} {c : Cell}
    (hinv : ∀ p ∈ r, p.1 = n → p = (n, c)) {m : String} (hmn : m ≠ n) :
    ∀ p ∈ materializeCol r m, p.1 = n → p = (n, c) := by
  unfold materializeCol
  by_cases h : hasName r m
  · rw [if_pos h]
    exact hinv
  · rw [if_neg h]
    intro p hp hpn
    rcases List.mem_append.mp hp with hp | hp
    · exact hinv p hp hpn
    · rw [List.mem_singleton.mp hp] at hpn; exact absurd hpn hmn

theorem map_id_of_mem {α : Type} {l : List α} {f : α → α} (h : ∀ a ∈ l, f a = a) :
    l.map f = l := by
  induction l with
  | nil => rfl
  | cons a l ih =>
    rw [List.map_cons, h a (List.mem_cons_self a l), ih (fun b hb => h b (List.mem_cons_of_mem a hb))]

theorem setCol_eq_self {r : Row} {n : String} {c : Cell} (hhas : hasName r n = true)
    (hinv : ∀ p ∈ r, p.1 = n → p = (n, c)) :
    setCol r n c = r := by
  unfold setCol
  rw [if_pos hhas]
  apply map_id_of_mem
  intro p hp
  by_cases hpn : p.1 == n
  · rw [if_pos hpn]; exact (hinv p hp (eq_of_beq hpn)).symm
  · rw [if_neg hpn]

theorem getCellD_of_mem_inv {r : Row} {n : String} {c : Cell} (hhas : hasName r n = true)
    (hinv : ∀ p ∈ r, p.1 = n → p = (n, c)) :
    getCellD r n = c := by
  conv_lhs => rw [← setCol_eq_self hhas hinv]
  exact getCellD_setCol_self r n c

theorem map_congr_mem {α β : Type} {l : List α} {f g : α → β} (h : ∀ a ∈ l, f a = g a) :
    l.map f = l.map g := by
  induction l with
  | nil => rfl
  | cons a l ih =>
    rw [List.map_cons, List.map_cons, h a (List.mem_cons_self a l),
      ih (fun b hb => h b (List.mem_cons_of_mem a hb))]

theorem map_self_idem {α : Type} {f : α → α} (hf : ∀ a, f (f a) = f a) (l : List α) :
    (l.map f).map f = l.map f := by
  induction l with
  | nil => rfl
  | cons a l ih => rw [List.map_cons, List.map_cons, hf a, ih]

/-! ### Lemmas about numeric coercion -/

theorem coerceEntry_fst (costCol : String) (p : String × Cell) :
    (coerceEntry costCol p).1 = p.1 := by
  unfold coerceEntry
  split <;> rfl

theorem coerceEntry_val (costCol : String) (p : String × Cell) :
    (coerceEntry costCol p).2.val = p.2.val := by
  unfold coerceEntry
  split <;> rfl

theorem coerceEntry_num (costCol n : String) (q : ℚ) :
    coerceEntry costCol (n, Cell.num q) = (n, Cell.num q) := by
  unfold coerceEntry
  split <;> rfl

theorem coerceEntry_idem (costCol : String) (p : String × Cell) :
    coerceEntry costCol (coerceEntry costCol p) = coerceEntry costCol p := by
  conv_lhs => rw [coerceEntry]
  rw [coerceEntry_fst]
  by_cases h : p.1 ∈ ignoreCols costCol
  · rw [if_pos h]
  · rw [if_neg h, coerceEntry_val, coerceEntry, if_neg h]

theorem hasName_coerceRow (costCol : String) (r : Row) (m : String) :
    hasName (coerceRow costCol r) m = hasName r m := by
  unfold coerceRow hasName
  rw [List.any_map]
  congr 1
  funext p
  simp only [Function.comp_apply, coerceEntry_fst]

theorem getV_coerceRow (costCol : String) (r : Row) (m : String) :
    getV (coerceRow costCol r) m = getV r m := by
  induction r with
  | nil => rfl
  | cons p r ih =>
    rw [coerceRow, List.map_cons]
    simp only [getV]
    rw [getCellD_cons, getCellD_cons, coerceEntry_fst]
    by_cases hp : p.1 == m
    · rw [if_pos hp, if_pos hp]
      exact coerceEntry_val costCol p
    · rw [if_neg hp, if_neg hp]
      exact ih

theorem coerceRow_coerceRow (costCol : String) (r : Row) :
    coerceRow costCol (coerceRow costCol r) = coerceRow costCol r := by
  unfold coerceRow
  rw [List.map_map]
  exact map_congr_mem (fun p _ => coerceEntry_idem costCol p)

theorem coerceRow_setCol_num (costCol : String) (r : Row) (n : String) (q : ℚ) :
    coerceRow costCol (setCol r n (Cell.num q)) = setCol (coerceRow costCol r) n (Cell.num q) := by
  unfold setCol
  rw [hasName_coerceRow]
  by_cases h : hasName r n
  · rw [if_pos h, if_pos h]
    unfold coerceRow
    rw [List.map_map, List.map_map]
    apply map_congr_mem
    intro p _
    show coerceEntry costCol (if p.1 == n then (n, Cell.num q) else p) =
      (if (coerceEntry costCol p).1 == n then (n, Cell.num q) else coerceEntry costCol p)
    rw [coerceEntry_fst]
    by_cases hp : p.1 == n
    · rw [if_pos hp, if_pos hp, coerceEntry_num]
    · rw [if_neg hp, if_neg hp]
  · rw [if_neg h, if_neg h]
    unfold coerceRow
    rw [List.map_append]
    congr 1
    rw [List.map_singleton, coerceEntry_num]

theorem coerceRow_materializeCol (costCol : String) (r : Row) (n : String) :
    coerceRow costCol (materializeCol r n) = materializeCol (coerceRow costCol r) n := by
  unfold materializeCol
  rw [hasName_coerceRow]
  by_cases h : hasName r n
  · rw [if_pos h, if_pos h]
  · rw [if_neg h, if_neg h]
    unfold coerceRow
    rw [List.map_append]
    congr 1
    rw [List.map_singleton, coerceEntry_num]

theorem grossPay_coerceRow (costCol : String) (r : Row) :
    grossPay (coerceRow costCol r) = grossPay r := by
  unfold grossPay
  exact congrArg List.sum (map_congr_mem (fun e _ => getV_coerceRow costCol r e))

theorem tdSum_coerceRow (costCol : String) (r : Row) :
    tdSum (coerceRow costCol r) = tdSum r := by
  unfold tdSum
  rw [getV_coerceRow, getV_coerceRow, getV_coerceRow, getV_coerceRow]

theorem coerceRow_gpStep (costCol : String) (r : Row) :
    coerceRow costCol (gpStep r) = gpStep (coerceRow costCol r) := by
  rw [gpStep, gpStep, coerceRow_setCol_num, grossPay_coerceRow]

theorem coerceRow_matStep (costCol : String) (r : Row) :
    coerceRow costCol (matStep r) = matStep (coerceRow costCol r) := by
  rw [matStep, matStep, coerceRow_materializeCol, coerceRow_materializeCol,
    coerceRow_materializeCol, coerceRow_materializeCol]

theorem coerceRow_tdStep (costCol : String) (r : Row) :
    coerceRow costCol (tdStep r) = tdStep (coerceRow costCol r) := by
  rw [tdStep, tdStep, coerceRow_setCol_num, tdSum_coerceRow]

theorem coerceRow_netStep (costCol : String) (r : Row) :
    coerceRow costCol (netStep r) = netStep (coerceRow costCol r) := by
  rw [netStep, netStep, coerceRow_setCol_num, getV_coerceRow, getV_coerceRow]

theorem coerceRow_summarizeRow (costCol : String) (r : Row) :
    coerceRow costCol (summarizeRow r) = summarizeRow (coerceRow costCol r) := by
  rw [summarizeRow, summarizeRow, coerceRow_netStep, coerceRow_tdStep,
    coerceRow_matStep, coerceRow_gpStep]

/-! ### Characterization of the payroll summary -/

theorem getV_gpStep_self (r : Row) : getV (gpStep r) "Gross Pay" = grossPay r := by
  rw [gpStep, getV_setCol_self]
  rfl

theorem getV_gpStep_ne (r : Row) (m : String) (h : m ≠ "Gross Pay") :
    getV (gpStep r) m = getV r m := by
  rw [gpStep, getV_setCol_ne _ _ h]

theorem getV_matStep (r : Row) (m : String) : getV (matStep r) m = getV r m := by
  rw [matStep, getV_materializeCol, getV_materializeCol, getV_materializeCol,
    getV_materializeCol]

theorem tdSum_matStep (r : Row) : tdSum (matStep r) = tdSum r := by
  rw [tdSum, tdSum, getV_matStep, getV_matStep, getV_matStep, getV_matStep]

theorem tdSum_gpStep (r : Row) : tdSum (gpStep r) = tdSum r := by
  rw [tdSum, tdSum, getV_gpStep_ne r "EPF" (by decide), getV_gpStep_ne r "Socso" (by decide),
    getV_gpStep_ne r "EIS" (by decide), getV_gpStep_ne r "PCB" (by decide)]

theorem getV_summarizeRow_GP (r : Row) :
    getV (summarizeRow r) "Gross Pay" = grossPay r := by
  rw [summarizeRow, netStep, getV_setCol_ne _ _ (show "Gross Pay" ≠ "Net Pay" by decide),
    tdStep, getV_setCol_ne _ _ (show "Gross Pay" ≠ "Total Deduction" by decide),
    getV_matStep, getV_gpStep_self]

theorem getV_summarizeRow_TD (r : Row) :
    getV (summarizeRow r) "Total Deduction" = tdSum r := by
  rw [summarizeRow, netStep,
    getV_setCol_ne _ _ (show "Total Deduction" ≠ "Net Pay" by decide), tdStep,
    getV_setCol_self]
  show tdSum (matStep (gpStep r)) = tdSum r
  rw [tdSum_matStep, tdSum_gpStep]

theorem getV_summarizeRow_NP (r : Row) :
    getV (summarizeRow r) "Net Pay" = grossPay r - tdSum r := by
  rw [summarizeRow, netStep, getV_setCol_self]
  show getV (tdStep (matStep (gpStep r))) "Gross Pay" -
    getV (tdStep (matStep (gpStep r))) "Total Deduction" = grossPay r - tdSum r
  rw [tdStep, getV_setCol_ne _ _ (show "Gross Pay" ≠ "Total Deduction" by decide),
    getV_matStep, getV_gpStep_self, getV_setCol_self]
  show grossPay r - tdSum (matStep (gpStep r)) = grossPay r - tdSum r
  rw [tdSum_matStep, tdSum_gpStep]

theorem getV_summarizeRow_other (r : Row) (m : String) (h1 : m ≠ "Gross Pay")
    (h2 : m ≠ "Total Deduction") (h3 : m ≠ "Net Pay") :
    getV (summarizeRow r) m = getV r m := by
  rw [summarizeRow, netStep, getV_setCol_ne _ _ h3, tdStep, getV_setCol_ne _ _ h2,
    getV_matStep, getV_gpStep_ne r m h1]

theorem hasName_summarizeRow_GP (r : Row) :
    hasName (summarizeRow r) "Gross Pay" = true := by
  rw [summarizeRow, netStep, hasName_setCol_ne _ _ (show "Gross Pay" ≠ "Net Pay" by decide),
    tdStep, hasName_setCol_ne _ _ (show "Gross Pay" ≠ "Total Deduction" by decide), matStep,
    hasName_materializeCol_ne _ (show "Gross Pay" ≠ "PCB" by decide),
    hasName_materializeCol_ne _ (show "Gross Pay" ≠ "EIS" by decide),
    hasName_materializeCol_ne _ (show "Gross Pay" ≠ "Socso" by decide),
    hasName_materializeCol_ne _ (show "Gross Pay" ≠ "EPF" by decide), gpStep]
  exact hasName_setCol_self _ _ _

theorem hasName_summarizeRow_EPF (r : Row) :
    hasName (summarizeRow r) "EPF" = true := by
  rw [summarizeRow, netStep, hasName_setCol_ne _ _ (show "EPF" ≠ "Net Pay" by decide),
    tdStep, hasName_setCol_ne _ _ (show "EPF" ≠ "Total Deduction" by decide), matStep,
    hasName_materializeCol_ne _ (show "EPF" ≠ "PCB" by decide),
    hasName_materializeCol_ne _ (show "EPF" ≠ "EIS" by decide),
    hasName_materializeCol_ne _ (show "EPF" ≠ "Socso" by decide)]
  exact hasName_materializeCol_self _ _

theorem hasName_summarizeRow_Socso (r : Row) :
    hasName (summarizeRow r) "Socso" = true := by
  rw [summarizeRow, netStep, hasName_setCol_ne _ _ (show "Socso" ≠ "Net Pay" by decide),
    tdStep, hasName_setCol_ne _ _ (show "Socso" ≠ "Total Deduction" by decide), matStep,
    hasName_materializeCol_ne _ (show "Socso" ≠ "PCB" by decide),
    hasName_materializeCol_ne _ (show "Socso" ≠ "EIS" by decide)]
  exact hasName_materializeCol_self _ _

theorem hasName_summarizeRow_EIS (r : Row) :
    hasName (summarizeRow r) "EIS" = true := by
  rw [summarizeRow, netStep, hasName_setCol_ne _ _ (show "EIS" ≠ "Net Pay" by decide),
    tdStep, hasName_setCol_ne _ _ (show "EIS" ≠ "Total Deduction" by decide), matStep,
    hasName_materializeCol_ne _ (show "EIS" ≠ "PCB" by decide)]
  exact hasName_materializeCol_self _ _

theorem hasName_summarizeRow_PCB (r : Row) :
    hasName (summarizeRow r) "PCB" = true := by
  rw [summarizeRow, netStep, hasName_setCol_ne _ _ (show "PCB" ≠ "Net Pay" by decide),
    tdStep, hasName_setCol_ne _ _ (show "PCB" ≠ "Total Deduction" by decide), matStep]
  exact hasName_materializeCol_self _ _

theorem hasName_summarizeRow_TD (r : Row) :
    hasName (summarizeRow r) "Total Deduction" = true := by
  rw [summarizeRow, netStep,
    hasName_setCol_ne _ _ (show "Total Deduction" ≠ "Net Pay" by decide), tdStep]
  exact hasName_setCol_self _ _ _

theorem hasName_summarizeRow_NP (r : Row) :
    hasName (summarizeRow r) "Net Pay" = true := by
  rw [summarizeRow, netStep]
  exact hasName_setCol_self _ _ _

theorem entries_summarizeRow_GP (r : Row) :
    ∀ p ∈ summarizeRow r, p.1 = "Gross Pay" → p = ("Gross Pay", Cell.num (grossPay r)) := by
  rw [summarizeRow, netStep]
  apply mem_setCol_preserve _ (show "Net Pay" ≠ "Gross Pay" by decide)
  rw [tdStep]
  apply mem_setCol_preserve _ (show "Total Deduction" ≠ "Gross Pay" by decide)
  rw [matStep]
  apply mem_materializeCol_preserve _ (show "PCB" ≠ "Gross Pay" by decide)
  apply mem_materializeCol_preserve _ (show "EIS" ≠ "Gross Pay" by decide)
  apply mem_materializeCol_preserve _ (show "Socso" ≠ "Gross Pay" by decide)
  apply mem_materializeCol_preserve _ (show "EPF" ≠ "Gross Pay" by decide)
  rw [gpStep]
  exact mem_setCol_eq

theorem entries_summarizeRow_TD (r : Row) :
    ∀ p ∈ summarizeRow r, p.1 = "Total Deduction" →
      p = ("Total Deduction", Cell.num (tdSum r)) := by
  rw [summarizeRow, netStep]
  apply mem_setCol_preserve _ (show "Net Pay" ≠ "Total Deduction" by decide)
  rw [tdStep, tdSum_matStep, tdSum_gpStep]
  exact mem_setCol_eq

theorem entries_summarizeRow_NP (r : Row) :
    ∀ p ∈ summarizeRow r, p.1 = "Net Pay" →
      p = ("Net Pay", Cell.num (grossPay r - tdSum r)) := by
  rw [summarizeRow, netStep]
  have hgp : getV (tdStep (matStep (gpStep r))) "Gross Pay" = grossPay r := by
    rw [tdStep, getV_setCol_ne _ _ (show "Gross Pay" ≠ "Total Deduction" by decide),
      getV_matStep, getV_gpStep_self]
  have htd : getV (tdStep (matStep (gpStep r))) "Total Deduction" = tdSum r := by
    rw [tdStep, getV_setCol_self]
    show tdSum (matStep (gpStep r)) = tdSum r
    rw [tdSum_matStep, tdSum_gpStep]
  rw [hgp, htd]
  exact mem_setCol_eq

theorem summarizeRow_summarizeRow (r : Row) :
    summarizeRow (summarizeRow r) = summarizeRow r := by
  have hall : ∀ e ∈ earningCols,
      e ≠ "Gross Pay" ∧ e ≠ "Total Deduction" ∧ e ≠ "Net Pay" := by decide
  have hg : grossPay (summarizeRow r) = grossPay r := by
    rw [grossPay, grossPay]
    apply congrArg List.sum
    apply map_congr_mem
    intro e he
    exact getV_summarizeRow_other r e (hall e he).1 (hall e he).2.1 (hall e he).2.2
  have hgp : gpStep (summarizeRow r) = summarizeRow r := by
    rw [gpStep, hg]
    exact setCol_eq_self (hasName_summarizeRow_GP r) (entries_summarizeRow_GP r)
  have hmat : matStep (summarizeRow r) = summarizeRow r := by
    rw [matStep, materializeCol_eq_self (hasName_summarizeRow_EPF r),
      materializeCol_eq_self (hasName_summarizeRow_Socso r),
      materializeCol_eq_self (hasName_summarizeRow_EIS r),
      materializeCol_eq_self (hasName_summarizeRow_PCB r)]
  have hts : tdSum (summarizeRow r) = tdSum r := by
    rw [tdSum, tdSum,
      getV_summarizeRow_other r "EPF" (by decide) (by decide) (by decide),
      getV_summarizeRow_other r "Socso" (by decide) (by decide) (by decide),
      getV_summarizeRow_other r "EIS" (by decide) (by decide) (by decide),
      getV_summarizeRow_other r "PCB" (by decide) (by decide) (by decide)]
  have htd : tdStep (summarizeRow r) = summarizeRow r := by
    rw [tdStep, hts]
    exact setCol_eq_self (hasName_summarizeRow_TD r) (entries_summarizeRow_TD r)
  have hnet : netStep (summarizeRow r) = summarizeRow r := by
    rw [netStep, getV_summarizeRow_GP, getV_summarizeRow_TD]
    exact setCol_eq_self (hasName_summarizeRow_NP r) (entries_summarizeRow_NP r)
  calc summarizeRow (summarizeRow r)
      = netStep (tdStep (matStep (gpStep (summarizeRow r)))) := rfl
    _ = summarizeRow r := by rw [hgp, hmat, htd, hnet]

theorem aggregateRow_aggregateRow (costCol : String) (r : Row) :
    aggregateRow costCol (aggregateRow costCol r) = aggregateRow costCol r := by
  rw [aggregateRow, aggregateRow, coerceRow_summarizeRow, coerceRow_coerceRow,
    summarizeRow_summarizeRow]

/-! ### Header lemmas -/

theorem hasCol_append_single (h : List String) (n m : String) :
    hasCol (h ++ [n]) m = (hasCol h m || n == m) := by
  simp [hasCol, List.any_append]

theorem hasCol_addCol_self (h : List String) (n : String) :
    hasCol (addCol h n) n = true := by
  unfold addCol
  by_cases hh : hasCol h n
  · rw [if_pos hh]; exact hh
  · rw [if_neg hh, hasCol_append_single]
    simp

theorem hasCol_addCol_mono (h : List String) (n m : String) (hm : hasCol h m = true) :
    hasCol (addCol h n) m = true := by
  unfold addCol
  by_cases hh : hasCol h n
  · rw [if_pos hh]; exact hm
  · rw [if_neg hh, hasCol_append_single, hm, Bool.true_or]

theorem addCol_of_hasCol {h : List String} {n : String} (hm : hasCol h n = true) :
    addCol h n = h := by
  unfold addCol
  rw [if_pos hm]

theorem hasCol_aggHeader (h : List String) :
    hasCol (aggHeader h) "Gross Pay" = true ∧ hasCol (aggHeader h) "EPF" = true ∧
    hasCol (aggHeader h) "Socso" = true ∧ hasCol (aggHeader h) "EIS" = true ∧
    hasCol (aggHeader h) "PCB" = true ∧ hasCol (aggHeader h) "Total Deduction" = true ∧
    hasCol (aggHeader h) "Net Pay" = true := by
  unfold aggHeader
  refine ⟨?_, ?_, ?_, ?_, ?_, ?_, ?_⟩
  · exact hasCol_addCol_mono _ _ _ (hasCol_addCol_mono _ _ _ (hasCol_addCol_mono _ _ _
      (hasCol_addCol_mono _ _ _ (hasCol_addCol_mono _ _ _ (hasCol_addCol_mono _ _ _
      (hasCol_addCol_self _ _))))))
  · exact hasCol_addCol_mono _ _ _ (hasCol_addCol_mono _ _ _ (hasCol_addCol_mono _ _ _
      (hasCol_addCol_mono _ _ _ (hasCol_addCol_mono _ _ _ (hasCol_addCol_self _ _)))))
  · exact hasCol_addCol_mono _ _ _ (hasCol_addCol_mono _ _ _ (hasCol_addCol_mono _ _ _
      (hasCol_addCol_mono _ _ _ (hasCol_addCol_self _ _))))
  · exact hasCol_addCol_mono _ _ _ (hasCol_addCol_mono _ _ _ (hasCol_addCol_mono _ _ _
      (hasCol_addCol_self _ _)))
  · exact hasCol_addCol_mono _ _ _ (hasCol_addCol_mono _ _ _ (hasCol_addCol_self _ _))
  · exact hasCol_addCol_mono _ _ _ (hasCol_addCol_self _ _)
  · exact hasCol_addCol_self _ _

theorem aggHeader_aggHeader (h : List String) :
    aggHeader (aggHeader h) = aggHeader h := by
  obtain ⟨h1, h2, h3, h4, h5, h6, h7⟩ := hasCol_aggHeader h
  conv_lhs => rw [aggHeader]
  rw [addCol_of_hasCol h1, addCol_of_hasCol h2, addCol_of_hasCol h3, addCol_of_hasCol h4,
    addCol_of_hasCol h5, addCol_of_hasCol h6, addCol_of_hasCol h7]

/-! ### The aggregated row in terms of the input row -/

theorem getV_aggregateRow_GP (costCol : String) (r : Row) :
    getV (aggregateRow costCol r) "Gross Pay" = grossPay r := by
  rw [aggregateRow, getV_summarizeRow_GP, grossPay_coerceRow]

theorem getV_aggregateRow_TD (costCol : String) (r : Row) :
    getV (aggregateRow costCol r) "Total Deduction" = tdSum r := by
  rw [aggregateRow, getV_summarizeRow_TD, tdSum_coerceRow]

theorem getV_aggregateRow_NP (costCol : String) (r : Row) :
    getV (aggregateRow costCol r) "Net Pay" = grossPay r - tdSum r := by
  rw [aggregateRow, getV_summarizeRow_NP, grossPay_coerceRow, tdSum_coerceRow]

/-! ### Rounding lemmas -/

theorem round2_intCast (k : ℤ) : round2 ((k : ℚ)) = (k : ℚ) := by
  unfold round2
  rw [show ((k : ℚ) * 100) = ((k * 100 : ℤ) : ℚ) by push_cast; ring, round_intCast]
  push_cast
  field_simp

theorem round2_natCast (k : ℕ) : round2 ((k : ℚ)) = (k : ℚ) := by
  have h := round2_intCast (k : ℤ)
  rw [show (((k : ℤ) : ℚ)) = ((k : ℚ)) by push_cast; ring] at h
  exact h

theorem round2_insurance (n : ℕ) :
    round2 (insuranceFee * (n : ℚ)) = (n : ℚ) * round2 insuranceFee := by
  have h1 : insuranceFee * (n : ℚ) = ((50 * n : ℕ) : ℚ) := by
    unfold insuranceFee; push_cast; ring
  have h2 : round2 insuranceFee = insuranceFee := by
    rw [show (insuranceFee : ℚ) = (((50 : ℕ) : ℚ)) by unfold insuranceFee; norm_num,
      round2_natCast]
  rw [h1, round2_natCast, h2]
  unfold insuranceFee
  push_cast
  ring

/-! ### Lemmas about the normalized column matcher -/

theorem find?_map_eq {α β : Type} (f : α → β) (p : β → Bool) (l : List α) :
    (l.map f).find? p = (l.find? (fun a => p (f a))).map f := by
  induction l with
  | nil => rfl
  | cons a l ih =>
    rw [List.map_cons]
    cases ha : p (f a) with
    | true => simp [List.find?, ha]
    | false => simp [List.find?, ha, ih]

theorem sum_norm_eq_zero {t : Table} {targets : List String}
    (h : ∀ c ∈ t.header, ∀ tg ∈ targets, normKey c ≠ normKey tg) :
    sum_norm t targets = 0 := by
  induction targets with
  | nil => rfl
  | cons tg rest ih =>
    have hfind : t.header.find? (fun c => normKey c == normKey tg) = none := by
      rw [List.find?_eq_none]
      intro c hc
      simpa using h c hc tg (List.mem_cons_self _ _)
    simp only [sum_norm, hfind]
    exact ih (fun c hc tg' htg' => h c hc tg' (List.mem_cons_of_mem _ htg'))

theorem sum_norm_targets_congr (t : Table) {ts ts' : List String}
    (h : List.Forall₂ (fun a b => normKey a = normKey b) ts ts') :
    sum_norm t ts = sum_norm t ts' := by
  induction h with
  | nil => rfl
  | @cons a b l l' hab htail ih =>
    simp only [sum_norm, hab]
    cases hf : t.header.find? (fun c => normKey c == normKey b) with
    | some c => rfl
    | none => exact ih

theorem getCellD_renameRow {f : String → String} (hinj : Function.Injective f)
    (r : Row) (c : String) :
    getCellD (renameRow f r) (f c) = getCellD r c := by
  induction r with
  | nil => rfl
  | cons p r ih =>
    rw [renameRow, List.map_cons, ← renameRow]
    rw [getCellD_cons, getCellD_cons]
    show (if (f p.1 == f c) = true then p.2 else getCellD (renameRow f r) (f c)) = _
    by_cases h : p.1 = c
    · rw [h]
      simp
    · rw [if_neg (by simp [beq_eq_false_iff_ne.mpr (fun hc => h (hinj hc))]),
        if_neg (by simp [beq_eq_false_iff_ne.mpr h]), ih]

theorem colSumD_renameTable {f : String → String} (hinj : Function.Injective f)
    (t : Table) (c : String) :
    colSumD (renameTable f t) (f c) = colSumD t c := by
  show ((t.rows.map (renameRow f)).map (fun r => getV r (f c))).sum
    = (t.rows.map (fun r => getV r c)).sum
  rw [List.map_map]
  apply congrArg List.sum
  apply map_congr_mem
  intro r _
  show getV (renameRow f r) (f c) = getV r c
  unfold getV
  rw [getCellD_renameRow hinj]

theorem sum_norm_renameTable {f : String → String} (hinj : Function.Injective f)
    (hnorm : ∀ s, normKey (f s) = normKey s) (t : Table) (ts : List String) :
    sum_norm (renameTable f t) ts = sum_norm t ts := by
  induction ts with
  | nil => rfl
  | cons tg rest ih =>
    have hfind : (renameTable f t).header.find? (fun c => normKey c == normKey tg)
        = (t.header.find? (fun c => normKey c == normKey tg)).map f := by
      show (t.header.map f).find? _ = _
      have hfun : (fun a : String => normKey (f a) == normKey tg)
          = (fun c : String => normKey c == normKey tg) := by
        funext c
        rw [hnorm]
      rw [find?_map_eq, hfun]
    simp only [sum_norm, hfind]
    cases hf : t.header.find? (fun c => normKey c == normKey tg) with
    | some c =>
      show colSumD (renameTable f t) (f c) = colSumD t c
      exact colSumD_renameTable hinj t c
    | none => exact ih

theorem sum_norm_append_skip {t : Table} {pre : List String}
    (hpre : ∀ tg' ∈ pre, ∀ c ∈ t.header, normKey c ≠ normKey tg') (ts : List String) :
    sum_norm t (pre ++ ts) = sum_norm t ts := by
  induction pre with
  | nil => rfl
  | cons tg pre ih =>
    have hfind : t.header.find? (fun c => normKey c == normKey tg) = none := by
      rw [List.find?_eq_none]
      intro c hc
      simpa using hpre tg (List.mem_cons_self _ _) c hc
    rw [List.cons_append]
    simp only [sum_norm, hfind]
    exact ih (fun tg' htg' c hc => hpre tg' (List.mem_cons_of_mem _ htg') c hc)

theorem sum_norm_first_target {t : Table} {tg c : String}
    (hc : t.header.find? (fun col => normKey col == normKey tg) = some c)
    (rest : List String) :
    sum_norm t (tg :: rest) = colSumD t c := by
  simp only [sum_norm, hc]

theorem lookupNorm_eq_none_iff {columns : List String} {tg : String} :
    lookupNorm columns tg = none ↔ ∀ c ∈ columns, normKey c ≠ normKey tg := by
  unfold lookupNorm
  rw [List.find?_eq_none]
  constructor
  · intro h c hc
    simpa using h c hc
  · intro h c hc
    simpa using h c hc

theorem firstAliasMatch_eq_none_iff {columns ts : List String} :
    firstAliasMatch columns ts = none ↔
      ∀ tg ∈ ts, ∀ c ∈ columns, normKey c ≠ normKey tg := by
  induction ts with
  | nil => simp [firstAliasMatch]
  | cons tg rest ih =>
    cases hl : lookupNorm columns tg with
    | some c =>
      simp only [firstAliasMatch, hl]
      constructor
      · intro h
        cases h
      · intro h
        exfalso
        unfold lookupNorm at hl
        have hc := List.mem_of_find?_eq_some hl
        have hp := List.find?_some hl
        exact h tg (List.mem_cons_self _ _) c hc (by simpa using hp)
    | none =>
      simp only [firstAliasMatch, hl]
      rw [ih]
      constructor
      · intro h tg' htg' c hc
        rcases List.mem_cons.mp htg' with rfl | htg'
        · exact (lookupNorm_eq_none_iff.mp hl) c hc
        · exact h tg' htg' c hc
      · intro h tg' htg' c hc
        exact h tg' (List.mem_cons_of_mem _ htg') c hc

theorem firstAliasMatch_eq_some {columns ts : List String} {c : String}
    (h : firstAliasMatch columns ts = some c) :
    c ∈ columns ∧ ∃ tg ∈ ts, normKey c = normKey tg := by
  induction ts with
  | nil => simp [firstAliasMatch] at h
  | cons tg rest ih =>
    rw [firstAliasMatch] at h
    cases hl : lookupNorm columns tg with
    | some c' =>
      rw [hl] at h
      have hcc : c' = c := by simpa using h
      subst hcc
      unfold lookupNorm at hl
      exact ⟨List.mem_of_find?_eq_some hl,
        tg, List.mem_cons_self _ _, by simpa using List.find?_some hl⟩
    | none =>
      rw [hl] at h
      obtain ⟨hc, tg', htg', heq⟩ := ih h
      exact ⟨hc, tg', List.mem_cons_of_mem _ htg', heq⟩

theorem firstAliasMatch_append_skip {columns pre : List String}
    (hpre : ∀ tg ∈ pre, ∀ c ∈ columns, normKey c ≠ normKey tg) (ts : List String) :
    firstAliasMatch columns (pre ++ ts) = firstAliasMatch columns ts := by
  induction pre with
  | nil => rfl
  | cons tg pre ih =>
    rw [List.cons_append, firstAliasMatch]
    have hl : lookupNorm columns tg = none :=
      lookupNorm_eq_none_iff.mpr (fun c hc => hpre tg (List.mem_cons_self _ _) c hc)
    rw [hl]
    exact ih (fun tg' htg' c hc => hpre tg' (List.mem_cons_of_mem _ htg') c hc)

/-! ### Lemmas about the resign filter and the invoice computation -/

theorem getCellD_parseDates_Resign (r : Row) :
    getCellD (parseDates r) "Resign" = toDateCell (getCellD r "Resign") := by
  rw [parseDates, getCellD_setCol_self]

theorem dropResigned_of_has {t : Table} (hJ : hasCol t.header "Joined" = true)
    (hR : hasCol t.header "Resign" = true) :
    dropResigned t = some ⟨t.header,
      (t.rows.filter (fun r => isNa (toDateCell (getCellD r "Resign")))).map parseDates⟩ := by
  unfold dropResigned
  rw [hJ, hR]
  have hc : (true && true) = true := rfl
  rw [if_pos hc]
  congr 1
  rw [List.filter_map]
  have hfun : ((fun r => isNa (getCellD r "Resign")) ∘ parseDates)
      = (fun r : Row => isNa (toDateCell (getCellD r "Resign"))) := by
    funext r
    show isNa (getCellD (parseDates r) "Resign") = _
    rw [getCellD_parseDates_Resign]
  rw [hfun]

theorem dropResigned_none_iff (t : Table) :
    dropResigned t = none ↔
      (hasCol t.header "Joined" && hasCol t.header "Resign") = false := by
  unfold dropResigned
  by_cases h : (hasCol t.header "Joined" && hasCol t.header "Resign") = true
  · rw [if_pos h]
    simp [h]
  · rw [if_neg h]
    simp only [Bool.not_eq_true] at h
    simp [h]

theorem invoice?_eq_some {t : Table} {inv : InvoiceData} (h : invoice? t = some inv) :
    hasCol t.header "Gross Pay" = true ∧ hasCol t.header "OT Amt 1½" = true ∧
    hasCol t.header "BOT" = true ∧ hasCol t.header "HRDF" = true ∧
    inv = invoiceOf t (colSumD t "Gross Pay") (colSumD t "OT Amt 1½")
      (colSumD t "BOT") (colSumD t "HRDF") := by
  unfold invoice? colSum? at h
  by_cases h1 : hasCol t.header "Gross Pay"
  · rw [if_pos h1] at h
    by_cases h2 : hasCol t.header "OT Amt 1½"
    · rw [if_pos h2] at h
      by_cases h3 : hasCol t.header "BOT"
      · rw [if_pos h3] at h
        by_cases h4 : hasCol t.header "HRDF"
        · rw [if_pos h4] at h
          exact ⟨h1, h2, h3, h4, (Option.some.inj h).symm⟩
        · rw [if_neg h4] at h
          simp at h
      · rw [if_neg h3] at h
        simp at h
    · rw [if_neg h2] at h
      simp at h
  · rw [if_neg h1] at h
    simp at h

theorem invoice?_isSome (t : Table) :
    (invoice? t).isSome = (hasCol t.header "Gross Pay" && hasCol t.header "OT Amt 1½" &&
      hasCol t.header "BOT" && hasCol t.header "HRDF") := by
  unfold invoice? colSum?
  by_cases h1 : hasCol t.header "Gross Pay" <;>
    by_cases h2 : hasCol t.header "OT Amt 1½" <;>
      by_cases h3 : hasCol t.header "BOT" <;>
        by_cases h4 : hasCol t.header "HRDF" <;>
          simp [h1, h2, h3, h4]

theorem invoice?_of_has {t : Table} (h1 : hasCol t.header "Gross Pay" = true)
    (h2 : hasCol t.header "OT Amt 1½" = true) (h3 : hasCol t.header "BOT" = true)
    (h4 : hasCol t.header "HRDF" = true) :
    invoice? t = some (invoiceOf t (colSumD t "Gross Pay") (colSumD t "OT Amt 1½")
      (colSumD t "BOT") (colSumD t "HRDF")) := by
  unfold invoice? colSum?
  rw [if_pos h1, if_pos h2, if_pos h3, if_pos h4]

theorem invoice?_Wtbl : invoice? Wtbl = some wInv :=
  invoice?_of_has (by decide) (by decide) (by decide) (by decide)

theorem invoice?_W0tbl : invoice? W0tbl = some w0Inv :=
  invoice?_of_has (by decide) (by decide) (by decide) (by decide)

theorem totalExcl_invoiceItems (w o e hq : ℚ) (n : ℕ) (m : ℚ) :
    ((invoiceItems w o e hq n m).map (fun it => it.amount.getD 0)).sum
      = round2 w + round2 o + round2 e + round2 hq
        + round2 (insuranceFee * (n : ℚ)) + round2 m := by
  simp [invoiceItems]
  ring

theorem invoiceOf_totalExcl (t : Table) (g o b hq : ℚ) :
    (invoiceOf t g o b hq).totalExcl
      = round2 (g - (o + b)) + round2 (o + b)
        + round2 (sum_norm t epfErAliases + sum_norm t socsoErAliases
          + sum_norm t eisErAliases)
        + round2 hq + round2 (insuranceFee * (t.rows.length : ℚ))
        + round2 (0.15 * ((g - (o + b)) + (o + b)
          + (sum_norm t epfErAliases + sum_norm t socsoErAliases
            + sum_norm t eisErAliases) + hq)) := by
  show ((invoiceItems _ _ _ _ _ _).map (fun it => it.amount.getD 0)).sum = _
  exact totalExcl_invoiceItems _ _ _ _ _ _

theorem w0Inv_totalExcl : w0Inv.totalExcl = 0 := by
  have hE : sum_norm W0tbl epfErAliases = 0 := sum_norm_eq_zero (by decide)
  have hS : sum_norm W0tbl socsoErAliases = 0 := sum_norm_eq_zero (by decide)
  have hI : sum_norm W0tbl eisErAliases = 0 := sum_norm_eq_zero (by decide)
  show (invoiceOf W0tbl (colSumD W0tbl "Gross Pay") (colSumD W0tbl "OT Amt 1½")
    (colSumD W0tbl "BOT") (colSumD W0tbl "HRDF")).totalExcl = 0
  rw [invoiceOf_totalExcl, hE, hS, hI,
    show colSumD W0tbl "Gross Pay" = 0 from rfl,
    show colSumD W0tbl "OT Amt 1½" = 0 from rfl,
    show colSumD W0tbl "BOT" = 0 from rfl,
    show colSumD W0tbl "HRDF" = 0 from rfl,
    show W0tbl.rows.length = 0 from rfl]
  norm_num [round2]

theorem invoiceItems_spec (w o e hq : ℚ) (n : ℕ) (m : ℚ) :
    ∀ it ∈ invoiceItems w o e hq n m,
      (it.amount = none ↔ it.no = 5) ∧
      ∀ a, it.amount = some a → a = (it.qty : ℚ) * (it.uPrice.getD 0) := by
  intro it hit
  unfold invoiceItems at hit
  fin_cases hit
  · refine ⟨iff_of_false (by simp) (by simp), fun a ha => ?_⟩
    simp only [Option.some.injEq] at ha
    rw [← ha]
    simp
  · refine ⟨iff_of_false (by simp) (by simp), fun a ha => ?_⟩
    simp only [Option.some.injEq] at ha
    rw [← ha]
    simp
  · refine ⟨iff_of_false (by simp) (by simp), fun a ha => ?_⟩
    simp only [Option.some.injEq] at ha
    rw [← ha]
    simp
  · refine ⟨iff_of_false (by simp) (by simp), fun a ha => ?_⟩
    simp only [Option.some.injEq] at ha
    rw [← ha]
    simp
  · refine ⟨iff_of_true rfl rfl, fun a ha => ?_⟩
    exact absurd ha (by simp)
  · refine ⟨iff_of_false (by simp) (by simp), fun a ha => ?_⟩
    simp only [Option.some.injEq] at ha
    rw [← ha]
    simp only [Option.getD_some]
    exact round2_insurance n
  · refine ⟨iff_of_false (by simp) (by simp), fun a ha => ?_⟩
    simp only [Option.some.injEq] at ha
    rw [← ha]
    simp

/-! ## Claims -/

/-- Claim C1: for every filtered department table the Payroll Aggregator
computes, for every row, Gross Pay as the sum of the fixed list of
earning-component columns with an absent column contributing zero, Total
Deduction as the sum of the EPF, Socso, EIS and PCB columns with missing
columns defaulting to zero, and Net Pay = Gross Pay - Total Deduction. -/
theorem C1_payroll_row_sums : ∀ (costCol : String) (t : Table) (r : Row),
    (aggregateTable costCol t).rows = t.rows.map (aggregateRow costCol) ∧
    getV (aggregateRow costCol r) "Gross Pay" = (earningCols.map (getV r)).sum ∧
    getV (aggregateRow costCol r) "Total Deduction" =
      getV r "EPF" + getV r "Socso" + getV r "EIS" + getV r "PCB" ∧
    getV (aggregateRow costCol r) "Net Pay" =
      getV (aggregateRow costCol r) "Gross Pay" -
        getV (aggregateRow costCol r) "Total Deduction" := by
  intro costCol t r
  refine ⟨rfl, getV_aggregateRow_GP costCol r, getV_aggregateRow_TD costCol r, ?_⟩
  rw [getV_aggregateRow_NP, getV_aggregateRow_GP, getV_aggregateRow_TD]

/-- Claim C2 counterexample: on `C2tbl` with targets `C2targets` the source
returns the sum of the column matching the FIRST TARGET (the second column,
sum 2), not the sum of the first column matching some target (sum 1), so
the claim's column-first reading of `sum_norm` is false. -/
theorem C2_first_column_counterexample :
    sum_norm C2tbl C2targets = 2 ∧ sumNormColumnFirst C2tbl C2targets = 1 ∧
    sum_norm C2tbl C2targets ≠ sumNormColumnFirst C2tbl C2targets := by
  have hv2 : getV C2row "EPF ER" = 2 := by
    rw [getV, show getCellD C2row "EPF ER" = Cell.num 2 from by decide]
    rfl
  have hv1 : getV C2row "EIS ER" = 1 := by
    rw [getV, show getCellD C2row "EIS ER" = Cell.num 1 from by decide]
    rfl
  have hc2 : colSumD C2tbl "EPF ER" = 2 := by
    show (List.map (fun r => getV r "EPF ER") [C2row]).sum = 2
    simp only [List.map_cons, List.map_nil, hv2, List.sum_cons, List.sum_nil, add_zero]
  have hc1 : colSumD C2tbl "EIS ER" = 1 := by
    show (List.map (fun r => getV r "EIS ER") [C2row]).sum = 1
    simp only [List.map_cons, List.map_nil, hv1, List.sum_cons, List.sum_nil, add_zero]
  have h2 : sum_norm C2tbl C2targets = 2 := by
    have hf : C2tbl.header.find? (fun c => normKey c == normKey "EPF ER")
        = some "EPF ER" := by decide
    show sum_norm C2tbl ("EPF ER" :: ["EIS ER"]) = 2
    simp only [sum_norm, hf]
    exact hc2
  have h1 : sumNormColumnFirst C2tbl C2targets = 1 := by
    have hf : C2tbl.header.find? (fun c => C2targets.any (fun tg => normKey c == normKey tg))
        = some "EIS ER" := by decide
    unfold sumNormColumnFirst
    rw [hf]
    exact hc1
  refine ⟨h2, h1, ?_⟩
  rw [h2, h1]
  norm_num

/-- Claim C2 (amended): `sum_norm` scans the TARGETS in order and returns
the sum of the first column matching the earliest matching target: for any
decomposition of the target list as `pre ++ tg :: suf` where no column
matches any target of `pre` and the first column whose normalized name
equals `tg`'s is `c`, the result is the sum of column `c` — for every
table and target list.  It returns zero when no column matches any target,
and it is invariant under normalization-preserving changes of the targets
or injective normalization-preserving renamings of the columns (case,
punctuation, digits, whitespace and apostrophe style are immaterial). -/
theorem C2_sum_norm_amended :
    (∀ (t : Table) (pre suf : List String) (tg : String),
      (∀ tg' ∈ pre, ∀ c ∈ t.header, normKey c ≠ normKey tg') →
      ∀ c, t.header.find? (fun col => normKey col == normKey tg) = some c →
        sum_norm t (pre ++ tg :: suf) = colSumD t c) ∧
    (∀ (t : Table) (targets : List String),
      (∀ c ∈ t.header, ∀ tg ∈ targets, normKey c ≠ normKey tg) →
        sum_norm t targets = 0) ∧
    (∀ (t : Table) (ts ts' : List String),
      List.Forall₂ (fun a b => normKey a = normKey b) ts ts' →
        sum_norm t ts = sum_norm t ts') ∧
    (∀ f : String → String, Function.Injective f →
      (∀ s, normKey (f s) = normKey s) →
      ∀ (t : Table) (ts : List String),
        sum_norm (renameTable f t) ts = sum_norm t ts) := by
  refine ⟨?_, fun _ _ h => sum_norm_eq_zero h,
    fun t _ _ h => sum_norm_targets_congr t h,
    fun _ hinj hnorm t ts => sum_norm_renameTable hinj hnorm t ts⟩
  intro t pre suf tg hpre c hc
  rw [sum_norm_append_skip hpre]
  exact sum_norm_first_target hc suf

/-- Witness for the amended C2 at concrete inputs: with an unmatched first
target, the result is the sum of the first column matching the second
target; a target differing only in case and apostrophe style gives the
same sum; and a target matching no column gives zero. -/
theorem C2_sum_norm_amended_witness :
    sum_norm C2tbl ["No Match", "EPF ER", "EIS ER"] = colSumD C2tbl "EPF ER" ∧
    sum_norm Wtbl ["EPF ER"] = sum_norm Wtbl ["epf\x27er"] ∧
    sum_norm C2tbl ["XYZ"] = 0 :=
  ⟨C2_sum_norm_amended.1 C2tbl ["No Match"] ["EIS ER"] "EPF ER" (by decide) "EPF ER"
      (by decide),
   C2_sum_norm_amended.2.2.1 Wtbl _ _ (List.Forall₂.cons (by decide) List.Forall₂.nil),
   C2_sum_norm_amended.2.1 C2tbl ["XYZ"] (by decide)⟩

/-- Claim C3 counterexample: the single row of `C3tbl` has a non-empty but
unparseable `Resign` value, yet the filter RETAINS it (the output has one
row), whereas the claim says such a row is excluded as resigned. -/
theorem C3_unparseable_resign_retained :
    (dropResigned C3tbl).map (fun t => t.rows.length) = some 1 := by
  decide

/-- Claim C3 (amended): the Row Filter retains exactly the rows whose
Resign value converts to a missing date; an empty Resign is retained, a
parseable date (or numeric) Resign is excluded, and an unparseable
non-empty Resign coerces to missing, so the row is RETAINED (treated as
active), not excluded. -/
theorem C3_row_filter_amended : ∀ t : Table,
    hasCol t.header "Joined" = true → hasCol t.header "Resign" = true →
    (dropResigned t = some ⟨t.header,
        (t.rows.filter (fun r => isNa (toDateCell (getCellD r "Resign")))).map parseDates⟩ ∧
      isNa (toDateCell Cell.blank) = true ∧
      (∀ s, isNa (toDateCell (Cell.date s)) = false) ∧
      (∀ q, isNa (toDateCell (Cell.num q)) = false) ∧
      (∀ nv, isNa (toDateCell (Cell.text ⟨nv, none⟩)) = true) ∧
      (∀ nv d, isNa (toDateCell (Cell.text ⟨nv, some d⟩)) = false)) := by
  intro t hJ hR
  exact ⟨dropResigned_of_has hJ hR, rfl, fun _ => rfl, fun _ => rfl, fun _ => rfl,
    fun _ _ => rfl⟩

/-- Witness for the amended C3 on the concrete table `C3tbl`. -/
theorem C3_row_filter_amended_witness :
    dropResigned C3tbl = some ⟨C3tbl.header,
      (C3tbl.rows.filter (fun r => isNa (toDateCell (getCellD r "Resign")))).map parseDates⟩ :=
  (C3_row_filter_amended C3tbl (by decide) (by decide)).1

/-- Claim C4 counterexample: `C4tbl` lacks the `"BOT"` column; instead of
defaulting the missing overtime column to zero, the invoice computation
fails (the `KeyError` aborts invoice generation), contradicting the claim
that no missing optional column causes an error. -/
theorem C4_missing_overtime_column_fails : invoice? C4tbl = none := by
  decide

/-- Claim C4 (amended): wages = sum(Gross Pay) - (sum of "OT Amt 1½" + sum
of "BOT"), but the two overtime columns (as well as "Gross Pay" and
"HRDF") are read WITHOUT defaults: the invoice computation succeeds exactly
when all four columns are present, and a missing one aborts invoice
generation with an error instead of contributing zero. -/
theorem C4_wages_amended : ∀ t : Table,
    (invoice? t).isSome = (hasCol t.header "Gross Pay" && hasCol t.header "OT Amt 1½" &&
      hasCol t.header "BOT" && hasCol t.header "HRDF") ∧
    (∀ inv : InvoiceData, invoice? t = some inv →
      inv.wages = colSumD t "Gross Pay" - (colSumD t "OT Amt 1½" + colSumD t "BOT")) := by
  intro t
  refine ⟨invoice?_isSome t, fun inv h => ?_⟩
  obtain ⟨h1, h2, h3, h4, rfl⟩ := invoice?_eq_some h
  rfl

/-- Witness for the amended C4 on the concrete table `Wtbl`. -/
theorem C4_wages_amended_witness :
    wInv.wages = colSumD Wtbl "Gross Pay" -
      (colSumD Wtbl "OT Amt 1½" + colSumD Wtbl "BOT") :=
  (C4_wages_amended Wtbl).2 wInv invoice?_Wtbl

/-- Claim C5: employer_statutory is the sum of the Column Matcher results
over the three alias groups — EPF-ER, EIS-ER and Socso-ER variants, the
Socso group containing the literal "Soc \x27EE" spelling as listed — and the
management fee equals 0.15 × (wages + overtime + employer_statutory +
hrdf). -/
theorem C5_employer_statutory_mgmt_fee : ∀ (t : Table) (inv : InvoiceData),
    invoice? t = some inv →
    (inv.empStat = sum_norm t epfErAliases + sum_norm t eisErAliases +
        sum_norm t socsoErAliases ∧
      socsoErAliases = ["Socso ER", "SOC ER", "SOC\x27ER", "SOCSOER", "Soc \x27EE"] ∧
      inv.mgmtFee = 0.15 * (inv.wages + inv.overtime + inv.empStat + inv.hrdf)) := by
  intro t inv h
  obtain ⟨h1, h2, h3, h4, rfl⟩ := invoice?_eq_some h
  refine ⟨?_, rfl, rfl⟩
  show sum_norm t epfErAliases + sum_norm t socsoErAliases + sum_norm t eisErAliases = _
  ring

/-- Witness for C5 on the concrete table `Wtbl`. -/
theorem C5_employer_statutory_mgmt_fee_witness :
    wInv.empStat = sum_norm Wtbl epfErAliases + sum_norm Wtbl eisErAliases +
        sum_norm Wtbl socsoErAliases ∧
    wInv.mgmtFee = 0.15 * (wInv.wages + wInv.overtime + wInv.empStat + wInv.hrdf) := by
  have h := C5_employer_statutory_mgmt_fee Wtbl wInv invoice?_Wtbl
  exact ⟨h.1, h.2.2⟩

/-- Claim C6 counterexample: the invoice built from `Wtbl` has exactly ONE
line whose amount carries no computed value (the Medical Fee placeholder,
line 5), not two: the Insurance Claim line carries a computed amount. -/
theorem C6_single_placeholder_counterexample :
    (invoice? Wtbl).map (fun inv => (inv.items.filter (fun it => it.amount.isNone)).length)
        = some 1 ∧
    (invoice? Wtbl).map (fun inv => (inv.items.filter (fun it => it.amount.isNone)).length)
        ≠ some 2 :=
  ⟨by decide, by decide⟩

/-- Claim C6 (amended): each of the seven ordered line items satisfies
Amount = Qty × Unit Price except the SINGLE placeholder line (No. 5,
Medical Fee), which carries no computed value; total_excl_tax is the sum of
the numeric line amounts, with the placeholder contributing zero. -/
theorem C6_line_items_amended : ∀ (t : Table) (inv : InvoiceData),
    invoice? t = some inv →
    (inv.items.length = 7 ∧
      (∀ it ∈ inv.items, (it.amount = none ↔ it.no = 5) ∧
        ∀ a, it.amount = some a → a = (it.qty : ℚ) * (it.uPrice.getD 0)) ∧
      inv.totalExcl = (inv.items.map (fun it => it.amount.getD 0)).sum) := by
  intro t inv h
  obtain ⟨h1, h2, h3, h4, rfl⟩ := invoice?_eq_some h
  exact ⟨rfl, invoiceItems_spec _ _ _ _ _ _, rfl⟩

/-- Witness for the amended C6 on the concrete table `Wtbl`. -/
theorem C6_line_items_amended_witness :
    wInv.items.length = 7 ∧
    wInv.totalExcl = (wInv.items.map (fun it => it.amount.getD 0)).sum := by
  have h := C6_line_items_amended Wtbl wInv invoice?_Wtbl
  exact ⟨h.1, h.2.2⟩

/-- Claim C7: the cost-center resolver tries the fixed alias list in
priority order under letter-only lowercase normalization and returns the
first matching header; when no header matches any alias the lookup fails,
and the pipeline halts with no result (fatal for the session). -/
theorem C7_cost_center_resolver :
    (∀ columns : List String,
      (match_cost_center_column columns = none ↔
        ∀ c ∈ columns, ∀ tg ∈ costCenterAliases, normKey c ≠ normKey tg) ∧
      (∀ c, match_cost_center_column columns = some c →
        c ∈ columns ∧ ∃ tg ∈ costCenterAliases, normKey c = normKey tg) ∧
      (∀ (pre suf : List String) (tg : String),
        costCenterAliases = pre ++ tg :: suf →
        (∀ tg' ∈ pre, ∀ c ∈ columns, normKey c ≠ normKey tg') →
        ∀ c, lookupNorm columns tg = some c →
          match_cost_center_column columns = some c)) ∧
    (∀ (raw : Table) (dept : Cell),
      match_cost_center_column raw.header = none → runPipeline raw dept = none) := by
  constructor
  · intro columns
    refine ⟨?_, ?_, ?_⟩
    · rw [match_cost_center_column, firstAliasMatch_eq_none_iff]
      constructor
      · intro h c hc tg htg
        exact h tg htg c hc
      · intro h tg htg c hc
        exact h c hc tg htg
    · intro c h
      exact firstAliasMatch_eq_some h
    · intro pre suf tg heq hpre c hc
      rw [match_cost_center_column, heq, firstAliasMatch_append_skip hpre,
        firstAliasMatch, hc]
  · intro raw dept h
    unfold runPipeline
    rw [h]

/-- Witness for C7: a header with no cost-center alias halts the pipeline. -/
theorem C7_cost_center_resolver_witness :
    runPipeline noCCtbl (Cell.num 0) = none :=
  C7_cost_center_resolver.2 noCCtbl (Cell.num 0) (by decide)

/-- Claim C8: for any invoice with non-negative subtotal, tax_amount =
0.08 × total_excl_tax and total_incl_tax = total_excl_tax + tax_amount, so
total_incl_tax = 1.08 × total_excl_tax (exactly, in rational
arithmetic). -/
theorem C8_sst_totals : ∀ (t : Table) (inv : InvoiceData),
    invoice? t = some inv → 0 ≤ inv.totalExcl →
    (inv.tax = 0.08 * inv.totalExcl ∧ inv.totalIncl = inv.totalExcl + inv.tax ∧
      inv.totalIncl = 1.08 * inv.totalExcl) := by
  intro t inv h hnn
  obtain ⟨h1, h2, h3, h4, rfl⟩ := invoice?_eq_some h
  refine ⟨rfl, rfl, ?_⟩
  show (invoiceOf t (colSumD t "Gross Pay") (colSumD t "OT Amt 1½") (colSumD t "BOT")
      (colSumD t "HRDF")).totalExcl +
    0.08 * (invoiceOf t (colSumD t "Gross Pay") (colSumD t "OT Amt 1½") (colSumD t "BOT")
      (colSumD t "HRDF")).totalExcl = _
  have h108 : (1.08 : ℚ) = 1 + 0.08 := by norm_num
  rw [h108]
  ring

/-- Witness for C8 on the concrete empty department table `W0tbl`. -/
theorem C8_sst_totals_witness :
    w0Inv.tax = 0.08 * w0Inv.totalExcl ∧ w0Inv.totalIncl = w0Inv.totalExcl + w0Inv.tax ∧
    w0Inv.totalIncl = 1.08 * w0Inv.totalExcl :=
  C8_sst_totals W0tbl w0Inv invoice?_W0tbl (by rw [w0Inv_totalExcl])

/-- Claim C9: the Payroll Aggregator is idempotent: applying numeric
coercion and the Gross Pay / Total Deduction / Net Pay computation a second
time to an already-aggregated table yields the identical table (same values
for every row and column, and the same header). -/
theorem C9_aggregator_idempotent : ∀ (costCol : String) (t : Table),
    aggregateTable costCol (aggregateTable costCol t) = aggregateTable costCol t := by
  intro costCol t
  show Table.mk (aggHeader (aggHeader t.header))
      ((t.rows.map (aggregateRow costCol)).map (aggregateRow costCol))
    = Table.mk (aggHeader t.header) (t.rows.map (aggregateRow costCol))
  rw [aggHeader_aggHeader, map_self_idem (aggregateRow_aggregateRow costCol) t.rows]

/-- Claim C10: the Row Filter reads the "Joined" and "Resign" columns
unconditionally — it fails (uncaught exception) exactly when either column
is absent from the header — unlike the payroll-component columns, which may
all be absent without failure: aggregating a row with no payroll columns
yields zero Gross Pay, Total Deduction and Net Pay. -/
theorem C10_joined_resign_required : ∀ t : Table,
    (dropResigned t = none ↔
      (hasCol t.header "Joined" && hasCol t.header "Resign") = false) ∧
    (∀ costCol : String,
      getV (aggregateRow costCol []) "Gross Pay" = 0 ∧
      getV (aggregateRow costCol []) "Total Deduction" = 0 ∧
      getV (aggregateRow costCol []) "Net Pay" = 0) := by
  intro t
  have hgp0 : grossPay ([] : Row) = 0 := by
    have hmap : earningCols.map (getV ([] : Row)) = earningCols.map (fun _ => (0 : ℚ)) :=
      map_congr_mem (fun e _ => rfl)
    rw [grossPay, hmap]
    simp
  have htd0 : tdSum ([] : Row) = 0 := by
    show (0 : ℚ) + 0 + 0 + 0 = 0
    norm_num
  refine ⟨dropResigned_none_iff t, fun costCol => ⟨?_, ?_, ?_⟩⟩
  · rw [getV_aggregateRow_GP, hgp0]
  · rw [getV_aggregateRow_TD, htd0]
  · rw [getV_aggregateRow_NP, hgp0, htd0]
    norm_num

end PayrollInvoice
